import Mathlib

/-!
Verification development for the pdp8-tools repository.

Shallow embedding of:
* the byte classifier of `create-bootrom.c` (the `switch (ch & MASK)` dispatch);
* the per-byte capture state machines `capture_raw`, `capture_rim`,
  `capture_bin` of `capture-pdp8-papertapes.c`;
* the boot-ROM encoder of `create-bootrom.c` (`write_entry`, `autoStart`,
  the tape parse loop and the image-writing part of `main`);
* the boot-ROM decoder of `parse-bootrom.c` (the per-slot reconstruction
  in `main`).

Bytes are modelled as `Nat` (values < 256 where a claim needs it); C `int`
variables that can hold negative values (`leadinCount` after its
post-flush decrement, the strip character, `csum` before masking) are
modelled as `Int`.  C's `x & 0xfff` on a two's-complement `int` agrees
with `Int.emod x 4096`, and `fputc` truncates its argument to an unsigned
char, i.e. reduces it modulo 256.
-/

set_option maxRecDepth 8000

namespace Pdp8

/-! ### Byte classifier (create-bootrom.c, `switch (ch & MASK)`)

`MASK = 0xC0`; the cases are `TRAIL = 0x80`, `FIELD = 0xC0`,
`ORIGIN = 0x40`, `DATA = 0x00`.  ORIGIN and DATA payloads use `& 0x3f`,
FIELD uses `& 0x7`. -/

inductive Tag where
  | data (p : Nat)
  | origin (p : Nat)
  | field (f : Nat)
  | leaderTrailer
  deriving DecidableEq, Repr

def classify (b : Nat) : Tag :=
  if b &&& 0xC0 = 0x80 then .leaderTrailer
  else if b &&& 0xC0 = 0xC0 then .field (b &&& 0x07)
  else if b &&& 0xC0 = 0x40 then .origin (b &&& 0x3f)
  else .data (b &&& 0x3f)

/-- Modelled from the spec's words (for comparison with the source):
how many of the four claimed tag classes match byte `b`, when the
`LeaderTrailer` tag is taken to be *the exact byte 0x80* as the claim
states, beside `Data` (top bits 00), `Origin` (01) and `Field` (11). -/
def claimTagCount (b : Nat) : Nat :=
  (if b &&& 0xC0 = 0x00 then 1 else 0) +
  (if b &&& 0xC0 = 0x40 then 1 else 0) +
  (if b &&& 0xC0 = 0xC0 then 1 else 0) +
  (if b = 0x80 then 1 else 0)

/-- How many of the four source tag classes match byte `b`: the source
dispatches on the top two bits only, so its leader/trailer class is
`b &&& 0xC0 = 0x80` (all of 0x80–0xBF), not just the byte 0x80. -/
def codeTagCount (b : Nat) : Nat :=
  (if b &&& 0xC0 = 0x00 then 1 else 0) +
  (if b &&& 0xC0 = 0x40 then 1 else 0) +
  (if b &&& 0xC0 = 0xC0 then 1 else 0) +
  (if b &&& 0xC0 = 0x80 then 1 else 0)

/-! ### Capture state machines (capture-pdp8-papertapes.c)

`enum captureState_e` and the three per-byte handlers.  Each handler is a
function from the machine state and one input byte to the next machine
state; the bytes written with `fputc` are accumulated in an `out` list.
The `static` counters of the C functions are fields of the state. -/

inductive CaptureState where
  | start
  | leadIn
  | dataH
  | dataL
  | trail
  | done
  deriving DecidableEq, Repr

/-- State of `capture_bin`: capture state, the `static int` variables
`leadinCount`, `csum`, `c1`, `c2`, the bytes written so far, and the
checksum verdict printed at the sentinel (computed value, received
value); the code reports OK exactly when the two are equal.
`c1`/`c2` are only ever assigned byte values with clear top bit, so they
are `Nat`; `csum` and `leadinCount` are C `int`s. -/
structure BinM where
  st : CaptureState
  leadinCount : Int
  csum : Int
  c1 : Nat
  c2 : Nat
  out : List Nat
  verdict : Option (Int × Nat)
  deriving DecidableEq, Repr

def binInit : BinM := ⟨.start, 0, 0, 0, 0, [], none⟩

/-- One call of `capture_bin` on byte `c`.  In `CS_LEAD_IN`, the flush
loop `while (leadinCount--) fputc(CC_LEAD, f)` emits `leadinCount`
leader bytes and leaves `leadinCount = -1`.  In `CS_DATA_L`, the source
first writes the byte, then (for a clear top bit) accumulates it and
shifts the `c2 ← c1 ← c` window, then (for the exact byte 0x80, which
has its top bit set, so the two conditions never both fire) computes
`checksum = (c2 & 0x3f) << 6 | (c1 & 0x3f)` and
`csum = (csum - c1 - c2) & 0xfff` and compares them. -/
def binStep (s : BinM) (c : Nat) : BinM :=
  match s.st with
  | .start =>
      { s with
        leadinCount := if c = 0x80 then s.leadinCount + 1 else s.leadinCount,
        st := .leadIn }
  | .leadIn =>
      if c = 0x80 then
        { s with leadinCount := s.leadinCount + 1 }
      else if (c &&& 0xC0 = 0x40 ∧ s.leadinCount > 7) ∨
              (c &&& 0xC0 = 0xC0 ∧ s.leadinCount > 7) then
        { s with
          out := (s.out ++ List.replicate s.leadinCount.toNat 0x80) ++ [c],
          csum := if c &&& 0xC0 = 0x40 then s.csum + c else s.csum,
          leadinCount := -1,
          st := .dataL }
      else
        { s with leadinCount := 0 }
  | .dataL =>
      if c &&& 0x80 = 0 then
        { s with out := s.out ++ [c], csum := s.csum + c, c2 := s.c1, c1 := c }
      else if c = 0x80 then
        { s with
          out := s.out ++ [c],
          csum := (s.csum - s.c1 - s.c2) % 4096,
          verdict := some ((s.csum - s.c1 - s.c2) % 4096,
                           ((s.c2 &&& 0x3f) <<< 6) ||| (s.c1 &&& 0x3f)),
          st := .trail }
      else
        { s with out := s.out ++ [c] }
  | .trail =>
      if c ≠ 0x80 then { s with st := .done } else { s with out := s.out ++ [c] }
  | .done => s
  | .dataH => s

def binRun (l : List Nat) : BinM := l.foldl binStep binInit

/-- State of `capture_rim`: capture state, `static int leadinCount`, and
the bytes written so far. -/
structure RimM where
  st : CaptureState
  leadinCount : Int
  out : List Nat
  deriving DecidableEq, Repr

def rimInit : RimM := ⟨.start, 0, []⟩

/-- One call of `capture_rim` on byte `c`.  In `CS_DATA_H` the byte is
always written, after the sentinel test that moves to `CS_TRAIL`. -/
def rimStep (s : RimM) (c : Nat) : RimM :=
  match s.st with
  | .start =>
      { s with
        leadinCount := if c = 0x80 then s.leadinCount + 1 else s.leadinCount,
        st := .leadIn }
  | .leadIn =>
      if c = 0x80 then
        { s with leadinCount := s.leadinCount + 1 }
      else if c &&& 0xC0 = 0x40 ∧ s.leadinCount > 7 then
        { s with
          out := (s.out ++ List.replicate s.leadinCount.toNat 0x80) ++ [c],
          leadinCount := -1,
          st := .dataH }
      else
        { s with leadinCount := 0 }
  | .dataH =>
      { s with
        st := if c = 0x80 then CaptureState.trail else CaptureState.dataH,
        out := s.out ++ [c] }
  | .trail =>
      if c ≠ 0x80 then { s with st := .done } else { s with out := s.out ++ [c] }
  | .done => s
  | .dataL => s

def rimRun (l : List Nat) : RimM := l.foldl rimStep rimInit

/-- State of `capture_raw`: capture state and the bytes written so far.
The output holds `Int` values because the strip character is a C `int`
(default `-1`); `fputc` reduces it modulo 256. -/
structure RawM where
  st : CaptureState
  out : List Int
  deriving DecidableEq, Repr

def rawInit : RawM := ⟨.start, []⟩

/-- One call of `capture_raw` on byte `c` with strip character
`strip` (the `-x` option, `-1` when not configured).  In `CS_START`, a
byte different from `strip` writes 16 copies of the strip character
(when one is configured) and moves to `CS_LEAD_IN`; in every other
state the byte is written through. -/
def rawStep (strip : Int) (s : RawM) (c : Nat) : RawM :=
  match s.st with
  | .start =>
      if strip ≠ (c : Int) then
        { st := .leadIn,
          out := s.out ++
            (if strip ≠ -1 then List.replicate 16 (strip % 256) else []) }
      else s
  | _ => { s with out := s.out ++ [(c : Int)] }

def rawRun (strip : Int) (l : List Nat) : RawM := l.foldl (rawStep strip) rawInit

/-- Sum of the byte values with clear top bit (the `Data`/`Origin`
classes), the bytes `capture_bin` accumulates into `csum` while in
`CS_DATA_L`. -/
def lowSum : List Nat → Nat
  | [] => 0
  | b :: r => (if b &&& 0x80 = 0 then b else 0) + lowSum r

/-! ### Boot-ROM encoder (create-bootrom.c) and decoder (parse-bootrom.c) -/

def ROM_LOADADDR : Nat := 0x8
def ROM_LOADEX : Nat := 0x4
def ROM_DEPOSIT : Nat := 0x2
def ROM_START : Nat := 0x1

/-- `struct romData`. -/
structure RomData where
  cmd : Nat
  data : Nat
  deriving DecidableEq, Repr

/-- `fputc` writes its argument as an unsigned char. -/
def fputcB (x : Nat) : Nat := x % 256

/-- The two bytes `write_entry` sends to `out1` (ROM1): the command at
the even offset, then `(data >> 4) & 0xf` at the odd offset. -/
def rom1bytes (e : RomData) : List Nat :=
  [fputcB e.cmd, fputcB ((e.data >>> 4) &&& 0xf)]

/-- The two bytes `write_entry` sends to `out2` (ROM2): `(data >> 8) & 0xf`
at the even offset, then `data & 0xf` at the odd offset. -/
def rom2bytes (e : RomData) : List Nat :=
  [fputcB ((e.data >>> 8) &&& 0xf), fputcB (e.data &&& 0xf)]

/-- The `autoStart[]` table. -/
def autoStartEntries : List RomData :=
  [⟨ROM_LOADADDR, 0o0000⟩, ⟨ROM_START ||| ROM_LOADEX, 0o0000⟩,
   ⟨ROM_LOADADDR, 0o0200⟩, ⟨ROM_START ||| ROM_LOADEX, 0o0000⟩,
   ⟨ROM_LOADADDR, 0o2000⟩, ⟨ROM_START ||| ROM_LOADEX, 0o0000⟩,
   ⟨ROM_LOADADDR, 0o4200⟩, ⟨ROM_START ||| ROM_LOADEX, 0o0000⟩]

/-- The entry `main` stores over the stripped checksum slot:
`ROM_LOADADDR | ROM_START` with the hard start address `020`. -/
def startEntry : RomData := ⟨ROM_LOADADDR ||| ROM_START, 0o20⟩

/-- Content of `bootloader[0] .. bootloader[119]` as written by the
second loop of `main` (`for (i=8; i<128; i++) write_entry(bootloader[i-8], ...)`),
given the entries `src` produced by the parse loop: the array is
zero-initialised by `memset`, filled with `src`, then `n--` drops the
last parsed entry and `startEntry` is stored in its slot. -/
def bootEntries (src : List RomData) : List RomData :=
  ((src.dropLast ++ [startEntry]) ++ List.replicate 128 (⟨0, 0⟩ : RomData)).take 120

/-- The full sequence of entries handed to `write_entry`, in order: the
eight `autoStart` entries, then the 120 bootloader slots. -/
def writtenEntries (src : List RomData) : List RomData :=
  autoStartEntries ++ bootEntries src

def romImage1 (entries : List RomData) : List Nat :=
  (entries.map rom1bytes).flatten

def romImage2 (entries : List RomData) : List Nat :=
  (entries.map rom2bytes).flatten

/-- One turn of the dump loop of parse-bootrom.c at even index `i`:
`opr = buff_prom1[i]` and
`data = (buff_prom2[i] << 8) | (buff_prom1[i+1] << 4) | buff_prom2[i+1]`. -/
def decodeSlot (r1 r2 : List Nat) (i : Nat) : Nat × Nat :=
  (r1.getD i 0,
   ((r2.getD i 0) <<< 8) ||| ((r1.getD (i + 1) 0) <<< 4) ||| (r2.getD (i + 1) 0))

/-- The whole dump loop: `for (i=0; i<256; i+=2)`. -/
def decodeRom (r1 r2 : List Nat) : List (Nat × Nat) :=
  (List.range 128).map (fun j => decodeSlot r1 r2 (2 * j))

/-- The parse loop of create-bootrom.c `main`: dispatch on `ch & MASK`;
TRAIL and FIELD produce no entry; ORIGIN reads a second byte and
produces a `ROM_LOADADDR` entry followed by a zero `ROM_LOADEX` entry;
DATA reads a second byte and produces a `ROM_DEPOSIT` entry.  The word
is `(ch & 0x3f) << 6 | (ch1 & 0x3f)`.  When the second `getc` hits end
of file it yields `EOF = -1`, and `-1 & 0x3f` is `0x3f`. -/
def parseBoot : List Nat → List RomData
  | [] => []
  | ch :: rest =>
    if ch &&& 0xC0 = 0x80 then parseBoot rest
    else if ch &&& 0xC0 = 0xC0 then parseBoot rest
    else if ch &&& 0xC0 = 0x40 then
      match rest with
      | [] => [⟨ROM_LOADADDR, ((ch &&& 0x3f) <<< 6) ||| 0x3f⟩, ⟨ROM_LOADEX, 0⟩]
      | ch1 :: rest2 =>
          ⟨ROM_LOADADDR, ((ch &&& 0x3f) <<< 6) ||| (ch1 &&& 0x3f)⟩ ::
          ⟨ROM_LOADEX, 0⟩ :: parseBoot rest2
    else
      match rest with
      | [] => [⟨ROM_DEPOSIT, ((ch &&& 0x3f) <<< 6) ||| 0x3f⟩]
      | ch1 :: rest2 =>
          ⟨ROM_DEPOSIT, ((ch &&& 0x3f) <<< 6) ||| (ch1 &&& 0x3f)⟩ :: parseBoot rest2

/-! ### Arithmetic helpers for the 6-bit / nibble reassembly identities -/

theorem shl_or_low (k a b : Nat) (hb : b < 2 ^ k) :
    (a <<< k) ||| b = a * 2 ^ k + b := by
  rw [Nat.shiftLeft_eq, Nat.mul_comm]
  exact (Nat.mul_add_lt_is_or hb a).symm

theorem and_63_eq_mod (x : Nat) : x &&& 63 = x % 64 := by
  have h := Nat.and_pow_two_sub_one_eq_mod x 6
  norm_num at h
  exact h

theorem and_15_eq_mod (x : Nat) : x &&& 15 = x % 16 := by
  have h := Nat.and_pow_two_sub_one_eq_mod x 4
  norm_num at h
  exact h

theorem shr_6_eq_div (x : Nat) : x >>> 6 = x / 64 := by
  have h := Nat.shiftRight_eq_div_pow x 6
  norm_num at h
  exact h

theorem masked_and_128 (x : Nat) : (x &&& 63) &&& 128 = 0 := by
  rw [Nat.and_assoc, show (63 &&& 128 : Nat) = 0 by decide, Nat.and_zero]

/-! ### Run lemmas for the BIN capture machine -/

theorem binStep_leader (n cs : Int) (a b : Nat) (out : List Nat)
    (v : Option (Int × Nat)) :
    binStep ⟨.leadIn, n, cs, a, b, out, v⟩ 0x80 =
      ⟨.leadIn, n + 1, cs, a, b, out, v⟩ := by
  simp [binStep]

theorem bin_leadin_run (k : Nat) :
    ∀ (n cs : Int) (a b : Nat) (out : List Nat) (v : Option (Int × Nat)),
      List.foldl binStep ⟨.leadIn, n, cs, a, b, out, v⟩ (List.replicate k 0x80) =
        ⟨.leadIn, n + k, cs, a, b, out, v⟩ := by
  induction k with
  | zero => intro n cs a b out v; simp
  | succ k ih =>
      intro n cs a b out v
      rw [List.replicate_succ, List.foldl_cons, binStep_leader, ih]
      simp only [BinM.mk.injEq, and_true, true_and]
      push_cast
      omega

theorem binStep_trigger (n cs : Int) (a b : Nat) (out : List Nat)
    (v : Option (Int × Nat)) (c : Nat) (hc : c &&& 0xC0 = 0x40) (hn : 7 < n) :
    binStep ⟨.leadIn, n, cs, a, b, out, v⟩ c =
      ⟨.dataL, -1, cs + c, a, b,
       (out ++ List.replicate n.toNat 0x80) ++ [c], v⟩ := by
  have hne : c ≠ 0x80 := by
    intro h
    rw [h] at hc
    exact absurd hc (by decide)
  simp [binStep, hne, hc, hn]

theorem binStep_low (n cs : Int) (a b : Nat) (out : List Nat)
    (v : Option (Int × Nat)) (c : Nat) (hc : c &&& 0x80 = 0) :
    binStep ⟨.dataL, n, cs, a, b, out, v⟩ c =
      ⟨.dataL, n, cs + c, c, a, out ++ [c], v⟩ := by
  simp [binStep, hc]

theorem binStep_sentinel (n cs : Int) (a b : Nat) (out : List Nat)
    (v : Option (Int × Nat)) :
    binStep ⟨.dataL, n, cs, a, b, out, v⟩ 0x80 =
      ⟨.trail, n, (cs - a - b) % 4096, a, b, out ++ [0x80],
       some ((cs - a - b) % 4096, ((b &&& 0x3f) <<< 6) ||| (a &&& 0x3f))⟩ := by
  simp [binStep]

theorem bin_body_run (body : List Nat) :
    ∀ (n cs : Int) (a b : Nat) (out : List Nat) (v : Option (Int × Nat)),
      (∀ x ∈ body, x ≠ 0x80) →
      ∃ a2 b2, List.foldl binStep ⟨.dataL, n, cs, a, b, out, v⟩ body =
        ⟨.dataL, n, cs + lowSum body, a2, b2, out ++ body, v⟩ := by
  induction body with
  | nil =>
      intro n cs a b out v _
      exact ⟨a, b, by simp [lowSum]⟩
  | cons x r ih =>
      intro n cs a b out v hb
      have hx : x ≠ 0x80 := hb x (List.mem_cons_self x r)
      have hr : ∀ y ∈ r, y ≠ 0x80 := fun y hy => hb y (List.mem_cons_of_mem x hy)
      rw [List.foldl_cons]
      by_cases hlow : x &&& 0x80 = 0
      · rw [binStep_low _ _ _ _ _ _ _ hlow]
        obtain ⟨a2, b2, h2⟩ := ih n (cs + x) x a (out ++ [x]) v hr
        refine ⟨a2, b2, ?_⟩
        rw [h2]
        simp only [BinM.mk.injEq, and_true, true_and, lowSum, hlow, if_pos]
        constructor
        · push_cast
          ring
        · simp
      · have hstep : binStep ⟨.dataL, n, cs, a, b, out, v⟩ x =
            ⟨.dataL, n, cs, a, b, out ++ [x], v⟩ := by
          simp [binStep, hlow, hx]
        rw [hstep]
        obtain ⟨a2, b2, h2⟩ := ih n cs a b (out ++ [x]) v hr
        refine ⟨a2, b2, ?_⟩
        rw [h2]
        simp [lowSum, hlow]

theorem bin_record_verdict (body : List Nat) (hbody : ∀ x ∈ body, x ≠ 0x80)
    (n cs : Int) (a b : Nat) (out : List Nat) (e1 e2 : Nat)
    (h1 : e1 &&& 0x80 = 0) (h2 : e2 &&& 0x80 = 0) :
    (List.foldl binStep ⟨.dataL, n, cs, a, b, out, none⟩
        (body ++ [e1, e2, 0x80])).verdict =
      some ((cs + lowSum body + e1 + e2 - e2 - e1) % 4096,
            ((e1 &&& 0x3f) <<< 6) ||| (e2 &&& 0x3f)) := by
  rw [List.foldl_append]
  obtain ⟨a2, b2, hb2⟩ := bin_body_run body n cs a b out none hbody
  rw [hb2, List.foldl_cons, binStep_low _ _ _ _ _ _ _ h1,
      List.foldl_cons, binStep_low _ _ _ _ _ _ _ h2,
      List.foldl_cons, binStep_sentinel, List.foldl_nil]

/-! ### Claim theorems -/

/-- Claim C1: for a synthetic BIN record — lead-in of `k ≥ 8` leader
bytes, an Origin trigger byte `t`, a body of non-sentinel bytes, then
the two bytes `(S >> 6) & 0x3f` and `S & 0x3f` encoding the sum
`S = (t + lowSum body) % 4096` of all the top-bit-clear bytes
(the trigger included), then the sentinel `0x80` — the decoder reports
ChecksumOk: the corrected accumulator `(csum - c1 - c2) mod 4096` and
the received checksum `(c2 & 0x3f) << 6 | (c1 & 0x3f)` are both `S`. -/
theorem C1_bin_checksum_roundtrip (k t : Nat) (body : List Nat)
    (hk : 8 ≤ k) (ht : t &&& 0xC0 = 0x40) (hbody : ∀ x ∈ body, x ≠ 0x80) :
    (binRun (List.replicate k 0x80 ++ t :: (body ++
        [(((t + lowSum body) % 4096) >>> 6) &&& 0x3f,
         ((t + lowSum body) % 4096) &&& 0x3f, 0x80]))).verdict =
      some ((((t + lowSum body) % 4096 : Nat) : Int), (t + lowSum body) % 4096) := by
  set S := (t + lowSum body) % 4096 with hS
  set e1 := (S >>> 6) &&& 0x3f with he1
  set e2 := S &&& 0x3f with he2
  have hS4096 : S < 4096 := by rw [hS]; exact Nat.mod_lt _ (by norm_num)
  have he2lt : e2 < 64 := by
    rw [he2]
    have h := Nat.and_le_right (n := S) (m := 63)
    omega
  have he1low : e1 &&& 0x80 = 0 := by rw [he1]; exact masked_and_128 _
  have he2low : e2 &&& 0x80 = 0 := by rw [he2]; exact masked_and_128 _
  obtain ⟨k', rfl⟩ : ∃ k', k = k' + 1 := ⟨k - 1, by omega⟩
  unfold binRun
  rw [List.replicate_succ, List.cons_append, List.foldl_cons]
  have h0 : binStep binInit 0x80 = ⟨.leadIn, 1, 0, 0, 0, [], none⟩ := by
    simp [binStep, binInit]
  rw [h0, List.foldl_append, bin_leadin_run k']
  have hcount : (1 : Int) + (k' : Int) = ((k' + 1 : Nat) : Int) := by
    push_cast
    ring
  rw [hcount, List.foldl_cons,
      binStep_trigger ((k' + 1 : Nat) : Int) 0 0 0 [] none t ht
        (by push_cast; omega)]
  rw [Int.toNat_natCast]
  rw [bin_record_verdict body hbody (-1) (0 + (t : Int)) 0 0 _ e1 e2 he1low he2low]
  simp only [Option.some.injEq, Prod.mk.injEq]
  constructor
  · omega
  · have h163 : e1 &&& 0x3f = e1 := by
      rw [he1, Nat.and_assoc, Nat.and_self]
    have h263 : e2 &&& 0x3f = e2 := by
      rw [he2, Nat.and_assoc, Nat.and_self]
    have h26 : (2 : Nat) ^ 6 = 64 := by norm_num
    rw [h163, h263, shl_or_low 6 e1 e2 (by rw [h26]; exact he2lt), h26,
        he1, he2, and_63_eq_mod, and_63_eq_mod, shr_6_eq_div]
    omega

/-- Claim C1, witness: the record `0x80×8, 0x41` followed by the empty
body and the two checksum bytes for `S = 0x41` and the sentinel. -/
theorem C1_witness :
    (binRun (List.replicate 8 0x80 ++ 0x41 :: (([] : List Nat) ++
        [(((0x41 + lowSum []) % 4096) >>> 6) &&& 0x3f,
         ((0x41 + lowSum []) % 4096) &&& 0x3f, 0x80]))).verdict =
      some ((((0x41 + lowSum []) % 4096 : Nat) : Int), (0x41 + lowSum []) % 4096) :=
  C1_bin_checksum_roundtrip 8 0x41 [] (by decide) (by decide)
    (fun x hx => absurd hx (List.not_mem_nil x))

/-! ### Run lemmas for the RIM and raw capture machines -/

theorem rimStep_leader (n : Int) (out : List Nat) :
    rimStep ⟨.leadIn, n, out⟩ 0x80 = ⟨.leadIn, n + 1, out⟩ := by
  simp [rimStep]

theorem rim_leadin_run (k : Nat) :
    ∀ (n : Int) (out : List Nat),
      List.foldl rimStep ⟨.leadIn, n, out⟩ (List.replicate k 0x80) =
        ⟨.leadIn, n + k, out⟩ := by
  induction k with
  | zero => intro n out; simp
  | succ k ih =>
      intro n out
      rw [List.replicate_succ, List.foldl_cons, rimStep_leader, ih]
      simp only [RimM.mk.injEq, and_true, true_and]
      push_cast
      omega

theorem rimStep_trigger (n : Int) (out : List Nat) (c : Nat)
    (hc : c &&& 0xC0 = 0x40) (hn : 7 < n) :
    rimStep ⟨.leadIn, n, out⟩ c =
      ⟨.dataH, -1, (out ++ List.replicate n.toNat 0x80) ++ [c]⟩ := by
  have hne : c ≠ 0x80 := by
    intro h
    rw [h] at hc
    exact absurd hc (by decide)
  simp [rimStep, hne, hc, hn]

theorem rim_body_run (l : List Nat) :
    ∀ (n : Int) (out : List Nat), (∀ d ∈ l, d ≠ 0x80) →
      List.foldl rimStep ⟨.dataH, n, out⟩ l = ⟨.dataH, n, out ++ l⟩ := by
  induction l with
  | nil => intro n out _; simp
  | cons x r ih =>
      intro n out hd
      have hx : x ≠ 0x80 := hd x (List.mem_cons_self x r)
      have hr : ∀ y ∈ r, y ≠ 0x80 := fun y hy => hd y (List.mem_cons_of_mem x hy)
      have hstep : rimStep ⟨.dataH, n, out⟩ x = ⟨.dataH, n, out ++ [x]⟩ := by
        simp [rimStep, hx]
      rw [List.foldl_cons, hstep, ih n (out ++ [x]) hr]
      simp

theorem rimStep_dataH_sentinel (n : Int) (out : List Nat) :
    rimStep ⟨.dataH, n, out⟩ 0x80 = ⟨.trail, n, out ++ [0x80]⟩ := by
  simp [rimStep]

theorem rim_trailer_run (k : Nat) :
    ∀ (n : Int) (out : List Nat),
      List.foldl rimStep ⟨.trail, n, out⟩ (List.replicate k 0x80) =
        ⟨.trail, n, out ++ List.replicate k 0x80⟩ := by
  induction k with
  | zero => intro n out; simp
  | succ k ih =>
      intro n out
      have hstep : rimStep ⟨.trail, n, out⟩ 0x80 = ⟨.trail, n, out ++ [0x80]⟩ := by
        simp [rimStep]
      rw [List.replicate_succ, List.foldl_cons, hstep, ih]
      simp [List.replicate_succ]

theorem raw_skip_run (pre : List Nat) :
    ∀ (strip : Int) (out : List Int), (∀ x ∈ pre, (x : Int) = strip) →
      List.foldl (rawStep strip) ⟨.start, out⟩ pre = ⟨.start, out⟩ := by
  induction pre with
  | nil => intro strip out _; simp
  | cons x r ih =>
      intro strip out hp
      have hx : (x : Int) = strip := hp x (List.mem_cons_self x r)
      have hr : ∀ y ∈ r, (y : Int) = strip :=
        fun y hy => hp y (List.mem_cons_of_mem x hy)
      have hstep : rawStep strip ⟨.start, out⟩ x = ⟨.start, out⟩ := by
        simp [rawStep, hx]
      rw [List.foldl_cons, hstep, ih strip out hr]

theorem raw_copy_run (l : List Nat) :
    ∀ (strip : Int) (out : List Int),
      List.foldl (rawStep strip) ⟨.leadIn, out⟩ l =
        ⟨.leadIn, out ++ l.map (fun x => (x : Int))⟩ := by
  induction l with
  | nil => intro strip out; simp
  | cons x r ih =>
      intro strip out
      have hstep : rawStep strip ⟨.leadIn, out⟩ x = ⟨.leadIn, out ++ [(x : Int)]⟩ := by
        simp [rawStep]
      rw [List.foldl_cons, hstep, ih]
      simp

/-- Claim C3, counterexample: the claim's four tag classes (with
`LeaderTrailer` meaning the exact byte 0x80) are not total — the byte
0x81 (top bits 10, nonzero payload) matches none of them — while the
source classifies 0x81 as the leader/trailer class even though it is
not the byte 0x80. -/
theorem C3_counterexample :
    claimTagCount 0x81 = 0 ∧ classify 0x81 = Tag.leaderTrailer ∧
      (0x81 : Nat) ≠ 0x80 ∧ (0x81 : Nat) < 256 := by
  decide

/-- Claim C3, amended: the source classifies every byte by its top two
bits, so the leader/trailer class is `b &&& 0xC0 = 0x80` (all of
0x80–0xBF), not only the exact byte 0x80.  With that reading the
classification is total and mutually exclusive (exactly one class
matches every byte), and `classify` returns the matching tag with the
tag-appropriate payload mask (`& 0x3f` for Data/Origin, `& 0x07` for
Field). -/
theorem C3_classify_total_amended (b : Nat) (hb : b < 256) :
    codeTagCount b = 1 ∧
    (classify b = Tag.data (b &&& 0x3f) ↔ b &&& 0xC0 = 0x00) ∧
    (classify b = Tag.origin (b &&& 0x3f) ↔ b &&& 0xC0 = 0x40) ∧
    (classify b = Tag.field (b &&& 0x07) ↔ b &&& 0xC0 = 0xC0) ∧
    (classify b = Tag.leaderTrailer ↔ b &&& 0xC0 = 0x80) := by
  revert hb
  revert b
  decide

/-- Claim C3, witness for the amended theorem at the byte 0x41. -/
theorem C3_witness :
    codeTagCount 0x41 = 1 ∧
    (classify 0x41 = Tag.data (0x41 &&& 0x3f) ↔ (0x41 : Nat) &&& 0xC0 = 0x00) ∧
    (classify 0x41 = Tag.origin (0x41 &&& 0x3f) ↔ (0x41 : Nat) &&& 0xC0 = 0x40) ∧
    (classify 0x41 = Tag.field (0x41 &&& 0x07) ↔ (0x41 : Nat) &&& 0xC0 = 0xC0) ∧
    (classify 0x41 = Tag.leaderTrailer ↔ (0x41 : Nat) &&& 0xC0 = 0x80) :=
  C3_classify_total_amended 0x41 (by decide)

/-- Claim C4, counterexample: on the byte stream
`0x80×9, 0x41, 0x3F, 0x24, 0x80, 0x80×3` the BIN decoder reports
computed checksum 0x41 and received checksum 0xFE4 — not the claimed
computed 0 and received 0x93F (the claim forgot that the triggering
origin byte 0x41 is accumulated, and swapped the roles of `c1`/`c2`). -/
theorem C4_counterexample :
    (binRun (List.replicate 9 0x80 ++ [0x41, 0x3F, 0x24, 0x80] ++
        List.replicate 3 0x80)).verdict = some (0x41, 0xFE4) ∧
    some ((0x41 : Int), (0xFE4 : Nat)) ≠ some ((0 : Int), (0x93F : Nat)) := by
  decide

/-- Claim C4, amended: on the byte stream
`0x80×9, 0x41, 0x3F, 0x24, 0x80, 0x80×3` the BIN decoder accumulates
`0x41 + 0x3F + 0x24`, corrects by the window `c1 = 0x24`, `c2 = 0x3F`,
computing `0x41`, extracts the received checksum
`(0x3F & 0x3f) << 6 | (0x24 & 0x3f) = 0xFE4`, and reports ChecksumFail
since `0x41 ≠ 0xFE4`. -/
theorem C4_scenario_amended :
    (binRun (List.replicate 9 0x80 ++ [0x41, 0x3F, 0x24, 0x80] ++
        List.replicate 3 0x80)).verdict = some (0x41, 0xFE4) ∧
    ((0x41 : Int) ≠ ((0xFE4 : Nat) : Int)) := by
  decide

/-- Claim C7, counterexample: for the parsed source program
`[⟨8,1⟩, ⟨2,2⟩, ⟨2,3⟩]` (three RomWords), the emitted entry sequence
contains the second-to-last source RomWord `⟨2,2⟩` at slot 9 — the code
excludes only the final ONE entry (`n--`), so "the final two RomWords
are excluded" is false. -/
theorem C7_counterexample :
    (writtenEntries [⟨8, 1⟩, ⟨2, 2⟩, ⟨2, 3⟩]).getD 9 ⟨0, 0⟩ = ⟨2, 2⟩ ∧
    ([⟨8, 1⟩, ⟨2, 2⟩, ⟨2, 3⟩] : List RomData).getD 1 ⟨0, 0⟩ = ⟨2, 2⟩ ∧
    ([⟨8, 1⟩, ⟨2, 2⟩, ⟨2, 3⟩] : List RomData).length = 3 ∧
    (writtenEntries [⟨8, 1⟩, ⟨2, 2⟩, ⟨2, 3⟩]).getD 10 ⟨0, 0⟩ = startEntry := by
  decide

/-- Claim C7, amended: the encoder writes the 8-entry autostart preamble
first; then all source RomWords except the final one (the transmitted
checksum, which the parse loop turns into a single Deposit entry); then,
in the stripped entry's slot, a fresh entry whose command is
`LoadAddress | Start` with the fixed start address 0o20; then zero
padding up to the 120 bootloader slots (128 RomWords in total). -/
theorem C7_encoder_layout_amended (src : List RomData)
    (h1 : src ≠ []) (h2 : src.length ≤ 120) :
    writtenEntries src =
      autoStartEntries ++ src.dropLast ++ [startEntry] ++
        List.replicate (120 - src.length) ⟨0, 0⟩ := by
  unfold writtenEntries bootEntries
  have hlen : src.dropLast.length = src.length - 1 := List.length_dropLast src
  have h3 : 1 ≤ src.length := List.length_pos.mpr h1
  rw [List.take_append_eq_append_take, List.take_of_length_le
        (by simp [hlen]; omega), List.take_replicate]
  have hcnt : min (120 - (src.dropLast ++ [startEntry]).length) 128 =
      120 - src.length := by
    simp only [List.length_append, hlen, List.length_singleton]
    omega
  rw [hcnt]
  simp [List.append_assoc]

/-- Claim C7, witness for the amended theorem at the three-entry source
program `[⟨8,1⟩, ⟨2,2⟩, ⟨2,3⟩]`. -/
theorem C7_witness :
    writtenEntries [⟨8, 1⟩, ⟨2, 2⟩, ⟨2, 3⟩] =
      autoStartEntries ++ ([⟨8, 1⟩, ⟨2, 2⟩, ⟨2, 3⟩] : List RomData).dropLast ++
        [startEntry] ++
        List.replicate (120 - ([⟨8, 1⟩, ⟨2, 2⟩, ⟨2, 3⟩] : List RomData).length) ⟨0, 0⟩ :=
  C7_encoder_layout_amended [⟨8, 1⟩, ⟨2, 2⟩, ⟨2, 3⟩] (by decide) (by decide)

/-- Claim C8, counterexample: the Word Stream
`[OriginAddress 0o200, DataWord 0o1234, DataWord 0o5670]` (tape bytes
`0x42 0x00 0x0A 0x1C 0x2E 0x38`) parses to entries that do contain the
Deposit RomWord for 0o5670, but after encoding the two ROM images and
decoding them back, no decoded slot carries the value 0o5670: the final
DataWord is consumed as the transmitted checksum, so the address/value
sequence is NOT reproduced. -/
theorem C8_counterexample :
    (parseBoot [0x42, 0x00, 0x0A, 0x1C, 0x2E, 0x38]).contains
        ⟨ROM_DEPOSIT, 0o5670⟩ = true ∧
    ((decodeRom
        (romImage1 (writtenEntries (parseBoot [0x42, 0x00, 0x0A, 0x1C, 0x2E, 0x38])))
        (romImage2 (writtenEntries (parseBoot [0x42, 0x00, 0x0A, 0x1C, 0x2E, 0x38])))).map
      Prod.snd).contains 0o5670 = false := by
  decide

/-- Claim C8, amended: encoding the Word Stream
`[OriginAddress 0o200, DataWord 0o1234, DataWord 0o5670]` and decoding
the two ROM images reproduces the autostart preamble, then
`LoadAddress 0o200` with its synthetic `LoadExtension 0`, then
`Deposit 0o1234`; the final DataWord 0o5670 is treated as the
transmitted checksum and replaced by the `LoadAddress|Start 0o20`
entry, and the remaining 116 slots decode as zero. -/
theorem C8_bootrom_roundtrip_amended :
    decodeRom
        (romImage1 (writtenEntries (parseBoot [0x42, 0x00, 0x0A, 0x1C, 0x2E, 0x38])))
        (romImage2 (writtenEntries (parseBoot [0x42, 0x00, 0x0A, 0x1C, 0x2E, 0x38]))) =
      [(8, 0o0000), (5, 0o0000), (8, 0o0200), (5, 0o0000),
       (8, 0o2000), (5, 0o0000), (8, 0o4200), (5, 0o0000),
       (8, 0o200), (4, 0), (2, 0o1234), (9, 0o20)] ++
        List.replicate 116 (0, 0) := by
  decide

/-- Claim C2: with the framing engine in `LeadIn` holding leader counter
`nr` (RIM) or `nb` (BIN) and fed a non-leader byte `c`, the engine
leaves `LeadIn` for the in-record state iff `c` is Origin-class (RIM),
or Origin- or Field-class (BIN), and the counter exceeds 7; on that
transition exactly counter-many 0x80 leader bytes plus the triggering
byte are appended to the record; on any other non-leader byte the byte
is discarded, the counter resets to 0 and the engine stays in `LeadIn`. -/
theorem C2_leadin_transition (nr nb csb : Int) (ab bb : Nat)
    (outr outb : List Nat) (vb : Option (Int × Nat)) (c : Nat)
    (hc : c < 256) (hne : c ≠ 0x80) :
    (((rimStep ⟨.leadIn, nr, outr⟩ c).st = CaptureState.dataH ↔
        (c &&& 0xC0 = 0x40 ∧ nr > 7)) ∧
     (c &&& 0xC0 = 0x40 ∧ nr > 7 →
        (rimStep ⟨.leadIn, nr, outr⟩ c).out =
          (outr ++ List.replicate nr.toNat 0x80) ++ [c]) ∧
     (¬(c &&& 0xC0 = 0x40 ∧ nr > 7) →
        rimStep ⟨.leadIn, nr, outr⟩ c = ⟨.leadIn, 0, outr⟩)) ∧
    (((binStep ⟨.leadIn, nb, csb, ab, bb, outb, vb⟩ c).st = CaptureState.dataL ↔
        ((c &&& 0xC0 = 0x40 ∨ c &&& 0xC0 = 0xC0) ∧ nb > 7)) ∧
     ((c &&& 0xC0 = 0x40 ∨ c &&& 0xC0 = 0xC0) ∧ nb > 7 →
        (binStep ⟨.leadIn, nb, csb, ab, bb, outb, vb⟩ c).out =
          (outb ++ List.replicate nb.toNat 0x80) ++ [c]) ∧
     (¬((c &&& 0xC0 = 0x40 ∨ c &&& 0xC0 = 0xC0) ∧ nb > 7) →
        binStep ⟨.leadIn, nb, csb, ab, bb, outb, vb⟩ c =
          ⟨.leadIn, 0, csb, ab, bb, outb, vb⟩)) := by
  constructor
  · by_cases hcond : c &&& 0xC0 = 0x40 ∧ nr > 7
    · have hs := rimStep_trigger nr outr c hcond.1 hcond.2
      refine ⟨?_, fun _ => by rw [hs], fun hcon => absurd hcond hcon⟩
      rw [hs]
      simp [hcond]
    · have hs : rimStep ⟨.leadIn, nr, outr⟩ c = ⟨.leadIn, 0, outr⟩ := by
        simp only [rimStep]
        rw [if_neg hne, if_neg hcond]
      refine ⟨?_, fun hcon => absurd hcon hcond, fun _ => hs⟩
      rw [hs]
      simp [hcond]
  · by_cases hcond : (c &&& 0xC0 = 0x40 ∨ c &&& 0xC0 = 0xC0) ∧ nb > 7
    · have hif : (c &&& 0xC0 = 0x40 ∧ nb > 7) ∨ (c &&& 0xC0 = 0xC0 ∧ nb > 7) := by
        tauto
      have hs : binStep ⟨.leadIn, nb, csb, ab, bb, outb, vb⟩ c =
          ⟨.dataL, -1, if c &&& 0xC0 = 0x40 then csb + c else csb, ab, bb,
           (outb ++ List.replicate nb.toNat 0x80) ++ [c], vb⟩ := by
        simp only [binStep]
        rw [if_neg hne, if_pos hif]
      refine ⟨?_, fun _ => by rw [hs], fun hcon => absurd hcond hcon⟩
      rw [hs]
      simp [hcond]
    · have hif : ¬((c &&& 0xC0 = 0x40 ∧ nb > 7) ∨ (c &&& 0xC0 = 0xC0 ∧ nb > 7)) := by
        tauto
      have hs : binStep ⟨.leadIn, nb, csb, ab, bb, outb, vb⟩ c =
          ⟨.leadIn, 0, csb, ab, bb, outb, vb⟩ := by
        simp only [binStep]
        rw [if_neg hne, if_neg hif]
      refine ⟨?_, fun hcon => absurd hcon hcond, fun _ => hs⟩
      rw [hs]
      simp [hcond]

/-- Claim C2, witness: both engines in `LeadIn` with counter 8 fed the
Origin byte 0x41. -/
theorem C2_witness :
    (((rimStep ⟨.leadIn, 8, []⟩ 0x41).st = CaptureState.dataH ↔
        ((0x41 : Nat) &&& 0xC0 = 0x40 ∧ (8 : Int) > 7)) ∧
     ((0x41 : Nat) &&& 0xC0 = 0x40 ∧ (8 : Int) > 7 →
        (rimStep ⟨.leadIn, 8, []⟩ 0x41).out =
          (([] : List Nat) ++ List.replicate (8 : Int).toNat 0x80) ++ [0x41]) ∧
     (¬((0x41 : Nat) &&& 0xC0 = 0x40 ∧ (8 : Int) > 7) →
        rimStep ⟨.leadIn, 8, []⟩ 0x41 = ⟨.leadIn, 0, []⟩)) ∧
    (((binStep ⟨.leadIn, 8, 0, 0, 0, [], none⟩ 0x41).st = CaptureState.dataL ↔
        (((0x41 : Nat) &&& 0xC0 = 0x40 ∨ (0x41 : Nat) &&& 0xC0 = 0xC0) ∧ (8 : Int) > 7)) ∧
     (((0x41 : Nat) &&& 0xC0 = 0x40 ∨ (0x41 : Nat) &&& 0xC0 = 0xC0) ∧ (8 : Int) > 7 →
        (binStep ⟨.leadIn, 8, 0, 0, 0, [], none⟩ 0x41).out =
          (([] : List Nat) ++ List.replicate (8 : Int).toNat 0x80) ++ [0x41]) ∧
     (¬(((0x41 : Nat) &&& 0xC0 = 0x40 ∨ (0x41 : Nat) &&& 0xC0 = 0xC0) ∧ (8 : Int) > 7) →
        binStep ⟨.leadIn, 8, 0, 0, 0, [], none⟩ 0x41 =
          ⟨.leadIn, 0, 0, 0, 0, [], none⟩)) :=
  C2_leadin_transition 8 8 0 0 0 [] [] none 0x41 (by decide) (by decide)

/-- Claim C5: RIM decoding is the identity transform on the record body:
for an input `[0x80 ×8][origin][d1..dn][0x80][0x80 ×k]` with every `di`
different from 0x80, the emitted bytes are the record body
`[0x80 ×8][origin][d1..dn][0x80]` verbatim (followed by the echoed
trailer run). -/
theorem C5_rim_identity (t : Nat) (data : List Nat) (k : Nat)
    (ht : t &&& 0xC0 = 0x40) (hd : ∀ d ∈ data, d ≠ 0x80) :
    (rimRun (List.replicate 8 0x80 ++ t ::
        (data ++ 0x80 :: List.replicate k 0x80))).out =
      (List.replicate 8 0x80 ++ t :: (data ++ [0x80])) ++ List.replicate k 0x80 := by
  unfold rimRun
  rw [show (List.replicate 8 0x80 : List Nat) = 0x80 :: List.replicate 7 0x80 from rfl,
      List.cons_append, List.foldl_cons]
  have h0 : rimStep rimInit 0x80 = ⟨.leadIn, 1, []⟩ := by
    simp [rimStep, rimInit]
  rw [h0, List.foldl_append, rim_leadin_run 7]
  have h17 : (1 : Int) + ((7 : Nat) : Int) = 8 := by norm_num
  rw [h17, List.foldl_cons, rimStep_trigger 8 [] t ht (by norm_num),
      show ((8 : Int)).toNat = 8 from rfl, List.foldl_append,
      rim_body_run data _ _ hd, List.foldl_cons, rimStep_dataH_sentinel,
      rim_trailer_run k]
  simp

/-- Claim C5, witness: the record with origin byte 0x41, body `[7, 8]`
and a two-byte trailer run. -/
theorem C5_witness :
    (rimRun (List.replicate 8 0x80 ++ 0x41 ::
        ([7, 8] ++ 0x80 :: List.replicate 2 0x80))).out =
      (List.replicate 8 0x80 ++ 0x41 :: ([7, 8] ++ [0x80])) ++
        List.replicate 2 0x80 :=
  C5_rim_identity 0x41 [7, 8] 2 (by decide) (by decide)

/-- Claim C6: a RomWord with command `cmd` and 12-bit value `v` occupies
two byte-pair slots — even offset `(cmd, (v >> 8) & 0xf)` in ROM1/ROM2,
odd offset `((v >> 4) & 0xf, v & 0xf)` — and the decoder's per-slot
reconstruction recovers exactly `cmd` and `v`. -/
theorem C6_romword_roundtrip (cmd v : Nat) (hcmd : cmd < 256) (hv : v < 4096) :
    rom1bytes ⟨cmd, v⟩ = [cmd, (v >>> 4) &&& 0xf] ∧
    rom2bytes ⟨cmd, v⟩ = [(v >>> 8) &&& 0xf, v &&& 0xf] ∧
    decodeSlot (rom1bytes ⟨cmd, v⟩) (rom2bytes ⟨cmd, v⟩) 0 = (cmd, v) := by
  have hmask16 : ∀ x : Nat, x &&& 0xf < 16 := by
    intro x
    have h := Nat.and_le_right (n := x) (m := 15)
    omega
  have hm : ∀ x : Nat, (x &&& 0xf) % 256 = x &&& 0xf := by
    intro x
    exact Nat.mod_eq_of_lt (by have := hmask16 x; omega)
  have h1 : rom1bytes ⟨cmd, v⟩ = [cmd, (v >>> 4) &&& 0xf] := by
    simp [rom1bytes, fputcB, Nat.mod_eq_of_lt hcmd, hm]
  have h2 : rom2bytes ⟨cmd, v⟩ = [(v >>> 8) &&& 0xf, v &&& 0xf] := by
    simp [rom2bytes, fputcB, hm]
  refine ⟨h1, h2, ?_⟩
  rw [h1, h2]
  simp only [decodeSlot, List.getD_cons_zero, List.getD_cons_succ,
             Prod.mk.injEq, true_and]
  rw [Nat.or_assoc,
      shl_or_low 4 _ _ (by simpa using hmask16 v),
      shl_or_low 8 _ _ (by
        have ha := hmask16 (v >>> 4)
        have hb := hmask16 v
        norm_num
        omega)]
  rw [and_15_eq_mod, and_15_eq_mod, and_15_eq_mod]
  have hs8 : v >>> 8 = v / 256 := by
    have h := Nat.shiftRight_eq_div_pow v 8
    norm_num at h
    exact h
  have hs4 : v >>> 4 = v / 16 := by
    have h := Nat.shiftRight_eq_div_pow v 4
    norm_num at h
    exact h
  rw [hs8, hs4]
  norm_num
  omega

/-- Claim C6, witness: the RomWord `Deposit 0o1234`. -/
theorem C6_witness :
    rom1bytes ⟨2, 0o1234⟩ = [2, ((0o1234 : Nat) >>> 4) &&& 0xf] ∧
    rom2bytes ⟨2, 0o1234⟩ = [((0o1234 : Nat) >>> 8) &&& 0xf, (0o1234 : Nat) &&& 0xf] ∧
    decodeSlot (rom1bytes ⟨2, 0o1234⟩) (rom2bytes ⟨2, 0o1234⟩) 0 = (2, 0o1234) :=
  C6_romword_roundtrip 2 0o1234 (by decide) (by decide)

/-- Claim C9: in raw capture mode, a run of bytes equal to the strip
character is discarded in the start state; the first byte that differs
(the very first byte of the stream when the default strip value -1 is in
effect, since -1 never equals a byte) is consumed by the start-state
transition and never written; when a strip character is configured, 16
copies of it are written in its place; every byte after the start state
is written verbatim. -/
theorem C9_raw_capture (strip : Int) (pre rest : List Nat) (b : Nat)
    (hpre : ∀ x ∈ pre, (x : Int) = strip) (hb : (b : Int) ≠ strip)
    (hrange : strip = -1 ∨ (0 ≤ strip ∧ strip < 256)) :
    (rawRun strip (pre ++ b :: rest)).out =
      (if strip = -1 then [] else List.replicate 16 strip) ++
        rest.map (fun x => (x : Int)) := by
  unfold rawRun
  rw [show rawInit = (⟨.start, []⟩ : RawM) from rfl, List.foldl_append,
      raw_skip_run pre strip [] hpre, List.foldl_cons]
  have hstep : rawStep strip ⟨.start, []⟩ b =
      ⟨.leadIn, [] ++ (if strip ≠ -1 then List.replicate 16 (strip % 256) else [])⟩ := by
    simp only [rawStep]
    rw [if_pos (Ne.symm hb)]
  rw [hstep, raw_copy_run]
  rcases hrange with h | h
  · rw [h]
    simp
  · have hne1 : strip ≠ -1 := by omega
    rw [if_pos hne1, if_neg hne1, Int.emod_eq_of_lt h.1 h.2]
    simp

/-- Claim C9, witness: default strip value -1 and input `[0, 5]` — the
first byte 0 is consumed, the rest copied verbatim. -/
theorem C9_witness :
    (rawRun (-1) (([] : List Nat) ++ 0 :: [5])).out =
      (if (-1 : Int) = -1 then [] else List.replicate 16 (-1)) ++
        [5].map (fun x => (x : Int)) :=
  C9_raw_capture (-1) [] [5] 0 (fun x hx => absurd hx (List.not_mem_nil x))
    (by decide) (Or.inl rfl)

/-- Claim C10: while the BIN decoder is in `CS_DATA_L`, a byte with the
top bit set other than the exact value 0x80 is written through
unchanged and leaves `csum`, the `(c1, c2)` window, the counter and the
state untouched; and the state moves to `CS_TRAIL` (checksum
comparison) exactly on the byte 0x80. -/
theorem C10_bin_highbyte_frame (n cs : Int) (a b : Nat) (out : List Nat)
    (v : Option (Int × Nat)) (c c' : Nat) (hc : c < 256)
    (hhigh : c &&& 0x80 = 0x80) (hne : c ≠ 0x80) :
    binStep ⟨.dataL, n, cs, a, b, out, v⟩ c = ⟨.dataL, n, cs, a, b, out ++ [c], v⟩ ∧
    ((binStep ⟨.dataL, n, cs, a, b, out, v⟩ c').st = CaptureState.trail ↔ c' = 0x80) := by
  constructor
  · have h0 : ¬(c &&& 0x80 = 0) := by
      rw [hhigh]
      decide
    simp [binStep, h0, hne]
  · by_cases h : c' = 0x80
    · subst h
      simp [binStep]
    · by_cases h2 : c' &&& 0x80 = 0 <;> simp [binStep, h, h2]

/-- Claim C10, witness: the Field-class byte 0xC3 in `CS_DATA_L`, and the
sentinel test byte 0x80. -/
theorem C10_witness :
    binStep ⟨.dataL, -1, 7, 3, 4, [9], none⟩ 0xC3 =
      ⟨.dataL, -1, 7, 3, 4, [9] ++ [0xC3], none⟩ ∧
    ((binStep ⟨.dataL, -1, 7, 3, 4, [9], none⟩ 0x80).st = CaptureState.trail ↔
      (0x80 : Nat) = 0x80) :=
  C10_bin_highbyte_frame (-1) 7 3 4 [9] none 0xC3 0x80 (by decide) (by decide)
    (by decide)

end Pdp8
